import Mathlib

/-!
Verification of the `nexcli` repository (two CLI tools: `nex-nbp`, a
build-tracking/trigger tool, and `nex-imgops`, an image pipeline tool).

The Python sources are shallowly embedded: strings are modelled as `String`
or `List Char`, Python `Optional` values as `Option`, `click.UsageError` as
`Except String`, and the CLI loops as structurally recursive Lean functions
over the same data.  Network and database collaborators (the bitrise index
client, the REST client, `click.edit`) are passed in as function arguments,
so every theorem quantifies over all possible collaborator behaviours.
-/

namespace NexCLI

/-- One registered application, as returned by the bitrise index service
(`nex_bitrise_index.interface.AppEntry`): app code, title, repository URL,
CI slug. -/
structure AppEntry where
  app_code : String
  title : String
  repo_url : String
  slug : String
  deriving DecidableEq, Repr

/-- Git metadata of the current working directory (`nex_nbp.git.GitInfo`):
the remote URL and the remote branch name. -/
structure GitInfo where
  remote_url : String
  remote_name : String
  deriving DecidableEq, Repr

/-- Python `s.lower()` on the characters of a string. -/
def lowerChars (s : String) : List Char := s.data.map Char.toLower

/-- Python `s.replace(" ", "")`: remove every space character. -/
def stripSpaces (l : List Char) : List Char := l.filter (fun c => c != ' ')

/-- Does `hay` start with `needle`?  (Helper for Python `str.find`.) -/
def beginsWith : List Char → List Char → Bool
  | [], _ => true
  | _ :: _, [] => false
  | a :: as, b :: bs => a == b && beginsWith as bs

/-- Python `hay.find(needle)`: index of the first occurrence of the
substring `needle` in `hay` (`none` models the return value `-1`). -/
def findSub (needle : List Char) : List Char → Option Nat
  | [] => if beginsWith needle [] then some 0 else none
  | c :: rest =>
    if beginsWith needle (c :: rest) then some 0
    else (findSub needle rest).map (fun i => i + 1)

/-- Index of the first occurrence of the character `c` in a list. -/
def findIdxChar (c : Char) : List Char → Option Nat
  | [] => none
  | x :: xs => if x == c then some 0 else (findIdxChar c xs).map (fun i => i + 1)

/-- Python `title.find(ch, start)` for a single character `ch`: the least
index `≥ start` holding `ch`, or `none` for `-1`. -/
def findCharFrom (title : List Char) (c : Char) (start : Nat) : Option Nat :=
  (findIdxChar c (title.drop start)).map (fun i => i + start)

/-- The first element of the list satisfying `p` (the Python
`for app in apps: if p(app): return app` loops). -/
def findFirst (p : AppEntry → Bool) : List AppEntry → Option AppEntry
  | [] => none
  | a :: as => if p a then some a else findFirst p as

/-- Stage 1 of `NBPCommandContext._find_app_entry_by_app_name`:
`app.app_code.lower() == app_name` (with `app_name` already lowercased). -/
def stage1Matches (nameL : List Char) (app : AppEntry) : Bool :=
  lowerChars app.app_code == nameL

/-- Stage 2: `app.title.lower().find(app_name) != -1`. -/
def stage2Matches (nameL : List Char) (app : AppEntry) : Bool :=
  (findSub nameL (lowerChars app.title)).isSome

/-- Stage 3: after `app_name = app_name.replace(" ", "")`,
`app.title.lower().replace(" ", "").find(app_name) != -1`. -/
def stage3Matches (nameStripped : List Char) (app : AppEntry) : Bool :=
  (findSub nameStripped (stripSpaces (lowerChars app.title))).isSome

/-- The `pos = title.find(ch, pos + 1)` loop of stage 4: starting the next
search right after the previous hit, succeed when every character of the
supplied name is found. -/
def greedyScan (title : List Char) (start : Nat) : List Char → Bool
  | [] => true
  | c :: cs =>
    match findCharFrom title c start with
    | none => false
    | some pos => greedyScan title (pos + 1) cs

/-- Stage 4: the subsequence fallback, scanning
`title = app.title.lower().replace(" ", "")` with `pos` starting at `-1`
(so the first search starts at index `0`). -/
def stage4Matches (nameStripped : List Char) (app : AppEntry) : Bool :=
  greedyScan (stripSpaces (lowerChars app.title)) 0 nameStripped

/-- `NBPCommandContext._find_app_entry_by_app_name`: lowercase the supplied
name, then try the four stages in order, each one a first-match scan over
`apps`, falling through only when the previous stage returned no entry. -/
def find_app_entry_by_app_name (apps : List AppEntry) (app_name : String) :
    Option AppEntry :=
  let nameL := lowerChars app_name
  match findFirst (stage1Matches nameL) apps with
  | some app => some app
  | none =>
    match findFirst (stage2Matches nameL) apps with
    | some app => some app
    | none =>
      let nameStripped := stripSpaces nameL
      match findFirst (stage3Matches nameStripped) apps with
      | some app => some app
      | none => findFirst (stage4Matches nameStripped) apps

/-- `NBPCommandContext._find_app_entry_by_git`: the first app whose
`repo_url` equals the git remote URL. -/
def find_app_entry_by_git (apps : List AppEntry) (git_info : GitInfo) :
    Option AppEntry :=
  findFirst (fun app => app.repo_url == git_info.remote_url) apps

/-- `NBPCommandContext._find_app_entry`: dispatch on whether an app name
was supplied; a failed lookup raises a `click.UsageError` naming what was
searched for (the trailing `click.echo` of the selected app is display
only and not part of the returned value). -/
def find_app_entry (apps : List AppEntry) (git_info : Option GitInfo)
    (app_name : Option String) : Except String AppEntry :=
  match app_name with
  | some name =>
    match find_app_entry_by_app_name apps name with
    | none => .error ("Could not find app on bitrise matching " ++ name)
    | some app => .ok app
  | none =>
    match git_info with
    | none => .error "Please run inside a git repository to use auto app discovery."
    | some g =>
      match find_app_entry_by_git apps g with
      | none => .error ("Could not find app on bitrise matching git url " ++ g.remote_url)
      | some app => .ok app

/-- `NBPCommandContext._compute_suffixes`: default to staging when staging
is unset and production is falsy; raise a `click.UsageError` when the
computed list is empty. -/
def compute_suffixes (staging production : Option Bool) :
    Except String (List String) :=
  let staging :=
    if staging = none ∧ production ≠ some true then some true else staging
  let suffixes :=
    (if staging.getD false then ["stag"] else []) ++
      (if production.getD false then ["prod"] else [])
  if suffixes.isEmpty then .error "No staging nor production, bailing out."
  else .ok suffixes

/-- `NBPCommandContext._WORKFLOW_MAP`: the fixed dictionary mapping
`f"{target}#-#{suffix}"` keys to bitrise workflow identifiers. -/
def WORKFLOW_MAP : List (String × String) :=
  [("olympia#-#stag", "build_olympia_apk_staging"),
   ("olympia#-#prod", "build_olympia_apk_production"),
   ("sk#-#stag", "build_sk_apk_staging"),
   ("sk#-#prod", "build_sk_apk_production"),
   ("sky#-#stag", "build_android_apk_sky_beta_staging"),
   ("sky#-#prod", "build_android_apk_sky_beta"),
   ("retail#-#stag", "build_olympia_retail_demo_stag"),
   ("retail#-#prod", "build_olympia_retail_demo_prod")]

/-- The f-string key `f"{target}#-#{suffix}"`. -/
def workflowKey (target suffix : String) : String := target ++ "#-#" ++ suffix

/-- Python `key in dict` / `dict[key]` on an association list. -/
def mapLookup (m : List (String × String)) (k : String) : Option String :=
  (m.find? (fun kv => kv.1 == k)).map (fun kv => kv.2)

/-- The accumulated state of `initialize_workflows`: the workflow ids
appended so far and the warnings echoed to stderr so far. -/
structure WorkflowInit where
  workflows : List String
  warnings : List String
  deriving DecidableEq, Repr

/-- The inner `for suffix in suffixes` loop of `initialize_workflows`:
a key absent from the map echoes a warning and `continue`s; a present key
appends its workflow id. -/
def initWorkflowsSuffix (target : String) (acc : WorkflowInit) :
    List String → WorkflowInit
  | [] => acc
  | suffix :: rest =>
    match mapLookup WORKFLOW_MAP (workflowKey target suffix) with
    | none =>
      initWorkflowsSuffix target
        { acc with
          warnings := acc.warnings ++
            ["Cannot identify workflow id for " ++ target ++ " " ++ suffix] }
        rest
    | some w =>
      initWorkflowsSuffix target { acc with workflows := acc.workflows ++ [w] } rest

/-- The outer `for target in targets` loop of `initialize_workflows`. -/
def initWorkflowsTargets (suffixes : List String) (acc : WorkflowInit) :
    List String → WorkflowInit
  | [] => acc
  | t :: ts => initWorkflowsTargets suffixes (initWorkflowsSuffix t acc suffixes) ts

/-- `NBPCommandContext.initialize_workflows`: compute the suffixes, then run
the nested target/suffix loops starting from the empty workflow list. -/
def initialize_workflows (targets : List String)
    (staging production : Option Bool) : Except String WorkflowInit :=
  (compute_suffixes staging production).map
    (fun suffixes => initWorkflowsTargets suffixes ⟨[], []⟩ targets)

/-- The success body returned by the bitrise REST trigger endpoint
(the `build_number` / `build_url` fields read by the CLI, plus the raw
rendering printed on failure). -/
structure BuildResponse where
  build_number : Nat
  build_url : String
  rendered : String
  deriving DecidableEq, Repr

/-- One `click.echo` call: the message and whether it goes to stderr. -/
structure EchoLine where
  msg : String
  toStderr : Bool
  deriving DecidableEq, Repr

/-- The `for workflow_id in context.workflows` loop of the `trigger`
command; `build` models `bitrise_client.build`, returning
`(status_code, reason, response)`. -/
def triggerLoop (build : String → Nat × String × BuildResponse) :
    List String → List EchoLine
  | [] => []
  | workflow_id :: rest =>
    let r := build workflow_id
    (⟨"Triggering " ++ workflow_id ++ " ... ", false⟩ ::
      (if r.1 ≠ 201 then
        [⟨"FAILED", false⟩,
         ⟨"REASON: " ++ r.2.1, true⟩,
         ⟨"RESPONSE: " ++ r.2.2.rendered, true⟩]
      else
        [⟨"SUCCESS: " ++ toString r.2.2.build_number, false⟩,
         ⟨"    " ++ r.2.2.build_url, false⟩]))
      ++ triggerLoop build rest

/-- A build record from the bitrise index service
(`nex_bitrise_index.interface.BuildEntry`), restricted to the fields the
claims are about. -/
structure IndexBuildEntry where
  build_num : Nat
  memo : String
  deriving DecidableEq, Repr

/-- The observable outcome of the `builds memo` command: the template the
editor session is seeded with, whether the "No memo specified" warning was
echoed, and the `add_memo(_, _, edit, memo)` call that was issued, if any. -/
structure MemoOutcome where
  template : String
  warned : Bool
  add_memo_call : Option (Bool × String)
  deriving DecidableEq, Repr

/-- `builds_memo`: `fetch` models `bitrise_index_client.fetch_builds`
(only called in edit mode, as in the source) and `editFn` models
`click.edit` (`none` models the editor returning `None`).  An empty or
absent edit result echoes the warning and issues no update. -/
def builds_memo (edit : Bool) (fetch : Unit → List IndexBuildEntry)
    (editFn : String → Option String) : MemoOutcome :=
  let template :=
    if edit then
      match fetch () with
      | [] => ""
      | b :: _ => b.memo
    else ""
  match editFn template with
  | none => ⟨template, true, none⟩
  | some m =>
    if m = "" then ⟨template, true, none⟩ else ⟨template, false, some (edit, m)⟩

/-- The subcommands registered on the `nex-imgops` `cli` group. -/
inductive ImgCommand
  | load | save | clone | resize | pad | extract_alpha | dilate | erode
  | blur | subtract
  deriving DecidableEq, Repr

/-- The name → command table built by the `@cli.command(...)` decorators;
the `extract_alpha` function is registered under the name `"alpha"`. -/
def cliCommands : List (String × ImgCommand) :=
  [("load", .load), ("save", .save), ("clone", .clone), ("resize", .resize),
   ("pad", .pad), ("alpha", .extract_alpha), ("dilate", .dilate),
   ("erode", .erode), ("blur", .blur), ("subtract", .subtract)]

/-- The `alias_map` passed to `AliasedGroup` for the `cli` group. -/
def alias_map : List (String × String) := [("extract-alpha", "alpha")]

/-- Python `self._alias_map.get(cmd_name, cmd_name)`. -/
def aliasGet (m : List (String × String)) (k : String) : String :=
  ((m.find? (fun kv => kv.1 == k)).map (fun kv => kv.2)).getD k

/-- `click.Group.get_command`: plain lookup among the registered commands. -/
def baseGetCommand (name : String) : Option ImgCommand :=
  (cliCommands.find? (fun kv => kv.1 == name)).map (fun kv => kv.2)

/-- `AliasedGroup.get_command`: rewrite the command name through the alias
map, then defer to the base lookup. -/
def get_command (cmd_name : String) : Option ImgCommand :=
  baseGetCommand (aliasGet alias_map cmd_name)

/-- One step of the dedup loop in `builds_apk`: skip an entry whose build
number is already in `build_num_set`, otherwise append the entry and record
its number (the Python `set` is modelled as the list of recorded numbers). -/
def gatherStep (acc : List IndexBuildEntry × List Nat) (entry : IndexBuildEntry) :
    List IndexBuildEntry × List Nat :=
  if entry.build_num ∈ acc.2 then acc
  else (acc.1 ++ [entry], acc.2 ++ [entry.build_num])

/-- The `for workflow in workflows` loop of `builds_apk` when no explicit
build numbers were given; `listLatest` models
`bitrise_index_client.list_latest_builds` for one workflow. -/
def gatherLatest (listLatest : String → List IndexBuildEntry) :
    List String → List IndexBuildEntry × List Nat → List IndexBuildEntry × List Nat
  | [], acc => acc
  | wf :: rest, acc => gatherLatest listLatest rest ((listLatest wf).foldl gatherStep acc)

/-- The build-entry selection of `builds_apk`: with no explicit build
numbers, gather the latest build per workflow, deduplicated by build number;
otherwise fetch the explicitly given numbers.  Python's `list(set(build_nums))`
is modelled as `List.dedup` (the set's iteration order is unspecified; only
which numbers are fetched matters). -/
def builds_apk_entries (listLatest : String → List IndexBuildEntry)
    (fetch_builds : List Nat → List IndexBuildEntry)
    (workflows : List String) (build_nums : List Nat) : List IndexBuildEntry :=
  if build_nums = [] then (gatherLatest listLatest workflows ([], [])).1
  else fetch_builds build_nums.dedup

/-! ### Helper lemmas -/

theorem findFirst_eq_find? (p : AppEntry → Bool) (l : List AppEntry) :
    findFirst p l = l.find? p := by
  induction l with
  | nil => rfl
  | cons a as ih => by_cases h : p a <;> simp [findFirst, List.find?_cons, h, ih]

theorem findIdxChar_eq_none {c : Char} {L : List Char} :
    findIdxChar c L = none ↔ c ∉ L := by
  induction L with
  | nil => simp [findIdxChar]
  | cons x xs ih =>
    by_cases h : x = c
    · subst h
      simp [findIdxChar]
    · simp [findIdxChar, h, ih, Ne.symm h]

theorem findIdxChar_sublist {c : Char} {cs : List Char} :
    ∀ {L : List Char} {i : Nat}, findIdxChar c L = some i →
      (List.Sublist (c :: cs) L ↔ List.Sublist cs (L.drop (i + 1))) := by
  intro L
  induction L with
  | nil => intro i h; simp [findIdxChar] at h
  | cons x L' ih =>
    intro i h
    by_cases hx : x = c
    · subst hx
      simp [findIdxChar] at h
      subst h
      simp [List.cons_sublist_cons]
    · simp [findIdxChar, hx] at h
      obtain ⟨i', hi', rfl⟩ := h
      have hdrop : (x :: L').drop (i' + 1 + 1) = L'.drop (i' + 1) := by simp
      rw [hdrop, ← ih hi', List.cons_sublist_cons']
      constructor
      · rintro (h | ⟨rfl, -⟩)
        · exact h
        · exact absurd rfl hx
      · exact Or.inl

/-- The `pos = title.find(ch, pos + 1)` greedy loop succeeds exactly when the
scanned characters form a subsequence of the part of `title` from `start`. -/
theorem greedyScan_iff_sublist (title : List Char) :
    ∀ (cs : List Char) (start : Nat),
      greedyScan title start cs = true ↔ List.Sublist cs (title.drop start) := by
  intro cs
  induction cs with
  | nil => intro start; simp [greedyScan]
  | cons c cs ih =>
    intro start
    unfold greedyScan
    cases h : findCharFrom title c start with
    | none =>
      simp only [Bool.false_eq_true, false_iff]
      intro hsub
      have hc : c ∈ title.drop start := hsub.subset (List.mem_cons_self c cs)
      have hnone : findIdxChar c (title.drop start) = none := by
        simp [findCharFrom] at h
        exact h
      exact absurd hc (findIdxChar_eq_none.mp hnone)
    | some pos =>
      simp only [findCharFrom, Option.map_eq_some'] at h
      obtain ⟨i, hi, rfl⟩ := h
      rw [ih (i + start + 1)]
      have hdd : title.drop (i + start + 1) = (title.drop start).drop (i + 1) := by
        rw [List.drop_drop]
        ring_nf
      rw [hdd, findIdxChar_sublist hi]

/-! ### Claim theorems: app-name resolution and suffix computation -/

/-- C1: app-name resolution proceeds in exactly four stages (exact
case-insensitive app-code match, case-insensitive title substring,
space-stripped substring, subsequence test); a later stage is consulted
only when the previous produced no match (`Option.orElse` of first-match
scans), the first matching entry in list order wins at each stage, and
resolving `"SK"` against `[{code:"sk", title:"Sky App"},
{code:"sky", title:"SK App"}]` returns the entry with code `"sk"`. -/
theorem app_name_resolution_staged :
    (∀ (apps : List AppEntry) (name : String),
      find_app_entry_by_app_name apps name =
        (apps.find? (stage1Matches (lowerChars name))).orElse fun _ =>
          (apps.find? (stage2Matches (lowerChars name))).orElse fun _ =>
            (apps.find? (stage3Matches (stripSpaces (lowerChars name)))).orElse fun _ =>
              apps.find? (stage4Matches (stripSpaces (lowerChars name))))
    ∧ find_app_entry_by_app_name
        [⟨"sk", "Sky App", "r1", "s1"⟩, ⟨"sky", "SK App", "r2", "s2"⟩] "SK" =
        some ⟨"sk", "Sky App", "r1", "s1"⟩ := by
  constructor
  · intro apps name
    unfold find_app_entry_by_app_name
    simp only [findFirst_eq_find?]
    cases apps.find? (stage1Matches (lowerChars name)) <;>
      cases apps.find? (stage2Matches (lowerChars name)) <;>
        cases apps.find? (stage3Matches (stripSpaces (lowerChars name))) <;>
          cases apps.find? (stage4Matches (stripSpaces (lowerChars name))) <;>
            rfl
  · decide

/-- C4: the final fallback of app-name resolution accepts an entry exactly
when the supplied name's characters (lowercased, spaces removed) occur in
order, not necessarily contiguously, inside the entry's title (lowercased,
spaces removed); against title `"Olympia Retail Demo"`, input `"ord"` is
accepted and input `"dro"` is rejected. -/
theorem subsequence_fallback_iff :
    (∀ (name : String) (app : AppEntry),
      stage4Matches (stripSpaces (lowerChars name)) app = true ↔
        List.Sublist (stripSpaces (lowerChars name))
          (stripSpaces (lowerChars app.title)))
    ∧ stage4Matches (stripSpaces (lowerChars "ord"))
        ⟨"c", "Olympia Retail Demo", "r", "s"⟩ = true
    ∧ stage4Matches (stripSpaces (lowerChars "dro"))
        ⟨"c", "Olympia Retail Demo", "r", "s"⟩ = false := by
  refine ⟨?_, by decide, by decide⟩
  intro name app
  unfold stage4Matches
  rw [greedyScan_iff_sublist]
  simp

/-- C2 (counterexample): `_compute_suffixes` does raise the "no environment
selected" error: with staging explicitly `False` and production unset the
default rule does not apply and the computed list is empty. -/
theorem compute_suffixes_raises :
    compute_suffixes (some false) none =
      Except.error "No staging nor production, bailing out." := rfl

/-- C2 (amended): `_compute_suffixes` raises exactly when staging is
explicitly `False` while production is not explicitly `True`; in every
other case it returns a non-empty subset of `{"stag", "prod"}`. -/
theorem compute_suffixes_characterization :
    ∀ s p : Option Bool,
      ((∃ e, compute_suffixes s p = Except.error e) ↔
        s = some false ∧ p ≠ some true)
      ∧ (∀ l, compute_suffixes s p = Except.ok l →
          l ≠ [] ∧ ∀ x ∈ l, x = "stag" ∨ x = "prod") := by
  intro s p
  rcases s with _ | _ | _ <;> rcases p with _ | _ | _ <;>
    refine ⟨by simp [compute_suffixes], ?_⟩ <;>
      intro l hl <;> simp [compute_suffixes] at hl <;> simp [← hl]

theorem compute_suffixes_characterization_witness :
    (["stag"] : List String) ≠ [] ∧
      ∀ x ∈ (["stag"] : List String), x = "stag" ∨ x = "prod" :=
  (compute_suffixes_characterization none none).2 ["stag"] rfl

/-- C3: the truth table of `_compute_suffixes`: `(None, None)` gives exactly
`["stag"]`, `(None, True)` and `(False, True)` give exactly `["prod"]`, and
`(True, True)` gives exactly `["stag", "prod"]`. -/
theorem compute_suffixes_truth_table :
    compute_suffixes none none = Except.ok ["stag"]
    ∧ compute_suffixes none (some true) = Except.ok ["prod"]
    ∧ compute_suffixes (some false) (some true) = Except.ok ["prod"]
    ∧ compute_suffixes (some true) (some true) = Except.ok ["stag", "prod"] :=
  ⟨rfl, rfl, rfl, rfl⟩

theorem initWorkflowsSuffix_spec (t : String) :
    ∀ (suffixes : List String) (acc : WorkflowInit),
      initWorkflowsSuffix t acc suffixes =
        ⟨acc.workflows ++
           suffixes.filterMap (fun s => mapLookup WORKFLOW_MAP (workflowKey t s)),
         acc.warnings ++
           suffixes.filterMap (fun s =>
             if (mapLookup WORKFLOW_MAP (workflowKey t s)).isNone then
               some ("Cannot identify workflow id for " ++ t ++ " " ++ s)
             else none)⟩ := by
  intro suffixes
  induction suffixes with
  | nil => intro acc; simp [initWorkflowsSuffix]
  | cons s ss ih =>
    intro acc
    cases h : mapLookup WORKFLOW_MAP (workflowKey t s) <;>
      simp [initWorkflowsSuffix, h, ih, List.filterMap_cons]

theorem initWorkflowsTargets_spec (suffixes : List String) :
    ∀ (targets : List String) (acc : WorkflowInit),
      initWorkflowsTargets suffixes acc targets =
        ⟨acc.workflows ++
           targets.flatMap (fun t =>
             suffixes.filterMap (fun s => mapLookup WORKFLOW_MAP (workflowKey t s))),
         acc.warnings ++
           targets.flatMap (fun t =>
             suffixes.filterMap (fun s =>
               if (mapLookup WORKFLOW_MAP (workflowKey t s)).isNone then
                 some ("Cannot identify workflow id for " ++ t ++ " " ++ s)
               else none))⟩ := by
  intro targets
  induction targets with
  | nil => intro acc; simp [initWorkflowsTargets]
  | cons t ts ih =>
    intro acc
    simp [initWorkflowsTargets, initWorkflowsSuffix_spec, ih]

theorem foldl_gatherStep_invariant :
    ∀ (entries : List IndexBuildEntry) (acc : List IndexBuildEntry × List Nat),
      acc.2 = acc.1.map IndexBuildEntry.build_num → acc.2.Nodup →
        (entries.foldl gatherStep acc).2 =
            (entries.foldl gatherStep acc).1.map IndexBuildEntry.build_num
          ∧ (entries.foldl gatherStep acc).2.Nodup := by
  intro entries
  induction entries with
  | nil => intro acc h1 h2; exact ⟨h1, h2⟩
  | cons e es ih =>
    intro acc h1 h2
    rw [List.foldl_cons]
    by_cases hmem : e.build_num ∈ acc.2
    · have : gatherStep acc e = acc := by simp [gatherStep, hmem]
      rw [this]
      exact ih acc h1 h2
    · have hstep : gatherStep acc e = (acc.1 ++ [e], acc.2 ++ [e.build_num]) := by
        simp [gatherStep, hmem]
      rw [hstep]
      refine ih _ ?_ ?_
      · simp [h1]
      · simp [List.nodup_append, h2, hmem]

theorem gatherLatest_invariant (listLatest : String → List IndexBuildEntry) :
    ∀ (wfs : List String) (acc : List IndexBuildEntry × List Nat),
      acc.2 = acc.1.map IndexBuildEntry.build_num → acc.2.Nodup →
        (gatherLatest listLatest wfs acc).2 =
            (gatherLatest listLatest wfs acc).1.map IndexBuildEntry.build_num
          ∧ (gatherLatest listLatest wfs acc).2.Nodup := by
  intro wfs
  induction wfs with
  | nil => intro acc h1 h2; exact ⟨h1, h2⟩
  | cons wf rest ih =>
    intro acc h1 h2
    have hfold := foldl_gatherStep_invariant (listLatest wf) acc h1 h2
    exact ih _ hfold.1 hfold.2

/-! ### Claim theorems: workflows, trigger, memo, alias, apk dedup -/

/-- C5: the workflow table has exactly 8 entries, whose keys are the
4 targets × 2 suffixes; the `initialize_workflows` loops resolve every
(target, suffix) pair, including the workflow id of every pair present in
the table and a non-fatal stderr warning (and no workflow) for every absent
pair — the `filterMap`/`bind` form shows no pair aborts the remaining
ones and the loop never fails. -/
theorem workflow_lookup_table :
    WORKFLOW_MAP.length = 8
    ∧ WORKFLOW_MAP.map Prod.fst =
        (["olympia", "sk", "sky", "retail"].flatMap fun t =>
          ["stag", "prod"].map (workflowKey t))
    ∧ (∀ (targets suffixes : List String),
        (initWorkflowsTargets suffixes ⟨[], []⟩ targets).workflows =
            targets.flatMap (fun t =>
              suffixes.filterMap (fun s => mapLookup WORKFLOW_MAP (workflowKey t s)))
          ∧ (initWorkflowsTargets suffixes ⟨[], []⟩ targets).warnings =
              targets.flatMap (fun t =>
                suffixes.filterMap (fun s =>
                  if (mapLookup WORKFLOW_MAP (workflowKey t s)).isNone then
                    some ("Cannot identify workflow id for " ++ t ++ " " ++ s)
                  else none))) := by
  refine ⟨rfl, rfl, ?_⟩
  intro targets suffixes
  rw [initWorkflowsTargets_spec]
  exact ⟨by simp, by simp⟩

/-- C6: the trigger loop emits, for every workflow in order, its
"Triggering" line followed by either the inline failure report
(FAILED, REASON to stderr, RESPONSE to stderr) when the HTTP status is not
201, or the success report showing `build_number` and `build_url` when it
is 201; the `bind` form (and the append equation) shows a failing workflow
never aborts the remaining iterations of the same command. -/
theorem trigger_reports_and_continues :
    (∀ (build : String → Nat × String × BuildResponse) (workflows : List String),
      triggerLoop build workflows =
        workflows.flatMap (fun workflow_id =>
          ⟨"Triggering " ++ workflow_id ++ " ... ", false⟩ ::
            if (build workflow_id).1 ≠ 201 then
              [⟨"FAILED", false⟩,
               ⟨"REASON: " ++ (build workflow_id).2.1, true⟩,
               ⟨"RESPONSE: " ++ (build workflow_id).2.2.rendered, true⟩]
            else
              [⟨"SUCCESS: " ++ toString (build workflow_id).2.2.build_number, false⟩,
               ⟨"    " ++ (build workflow_id).2.2.build_url, false⟩]))
    ∧ (∀ (build : String → Nat × String × BuildResponse) (ws₁ ws₂ : List String),
        triggerLoop build (ws₁ ++ ws₂) =
          triggerLoop build ws₁ ++ triggerLoop build ws₂) := by
  constructor
  · intro build workflows
    induction workflows with
    | nil => rfl
    | cons wf rest ih => simp [triggerLoop, ih]
  · intro build ws₁ ws₂
    induction ws₁ with
    | nil => rfl
    | cons wf rest ih => simp [triggerLoop, ih]

/-- C7: in edit mode the editor session is seeded with the memo of the
first fetched build (empty template when edit mode is off or nothing was
fetched); an absent or empty edit result yields the warning and no
`add_memo` call, and a non-empty result yields exactly the
`add_memo(_, _, edit, memo)` call. -/
theorem memo_edit_seeds_and_aborts :
    ∀ (edit : Bool) (fetch : Unit → List IndexBuildEntry)
      (editFn : String → Option String),
      (builds_memo edit fetch editFn).template =
          (if edit then ((fetch ()).head?.map IndexBuildEntry.memo).getD "" else "")
        ∧ ((builds_memo edit fetch editFn).add_memo_call = none ↔
            editFn (builds_memo edit fetch editFn).template = none ∨
              editFn (builds_memo edit fetch editFn).template = some "")
        ∧ ((builds_memo edit fetch editFn).warned = true ↔
            (builds_memo edit fetch editFn).add_memo_call = none)
        ∧ (∀ m, editFn (builds_memo edit fetch editFn).template = some m →
            m ≠ "" →
            (builds_memo edit fetch editFn).add_memo_call = some (edit, m)) := by
  intro edit fetch editFn
  have htemp : (if edit then
      match fetch () with
      | [] => ""
      | b :: _ => b.memo
    else "") =
      (if edit then ((fetch ()).head?.map IndexBuildEntry.memo).getD "" else "") := by
    cases edit <;> cases fetch () <;> simp
  unfold builds_memo
  rw [htemp]
  cases he : editFn (if edit then
      ((fetch ()).head?.map IndexBuildEntry.memo).getD "" else "") with
  | none => simp [he]
  | some m =>
    by_cases hm : m = "" <;> simp [he, hm]

theorem memo_edit_seeds_and_aborts_witness :
    (builds_memo true (fun _ => [⟨7, "old memo"⟩])
        (fun _ => some "new memo")).add_memo_call = some (true, "new memo") :=
  (memo_edit_seeds_and_aborts true (fun _ => [⟨7, "old memo"⟩])
      (fun _ => some "new memo")).2.2.2 "new memo" rfl (by simp)

/-- C8: with no app name, resolution selects the first entry whose
repository URL equals the git remote URL exactly; a failed lookup (by
supplied name, or by git URL) raises a usage error whose message names the
searched-for app name respectively git remote URL, and a successful git
lookup returns exactly that first matching entry. -/
theorem app_resolution_by_git_and_errors :
    (∀ (apps : List AppEntry) (g : GitInfo),
      find_app_entry_by_git apps g =
        apps.find? (fun app => app.repo_url == g.remote_url))
    ∧ (∀ (apps : List AppEntry) (gi : Option GitInfo) (name : String),
        find_app_entry apps gi (some name) =
            Except.error ("Could not find app on bitrise matching " ++ name) ↔
          find_app_entry_by_app_name apps name = none)
    ∧ (∀ (apps : List AppEntry) (g : GitInfo),
        find_app_entry apps (some g) none =
            Except.error
              ("Could not find app on bitrise matching git url " ++ g.remote_url) ↔
          find_app_entry_by_git apps g = none)
    ∧ (∀ (apps : List AppEntry) (g : GitInfo) (app : AppEntry),
        find_app_entry apps (some g) none = Except.ok app ↔
          find_app_entry_by_git apps g = some app) := by
  refine ⟨fun apps g => findFirst_eq_find? _ apps, ?_, ?_, ?_⟩
  · intro apps gi name
    unfold find_app_entry
    cases h : find_app_entry_by_app_name apps name <;> simp [h]
  · intro apps g
    unfold find_app_entry
    cases h : find_app_entry_by_git apps g <;> simp [h]
  · intro apps g app
    unfold find_app_entry
    cases h : find_app_entry_by_git apps g <;> simp [h]

/-- C9: the image tool rewrites the invoked name `"extract-alpha"` through
the alias map to `"alpha"` before lookup, so both names resolve to the same
registered extract-alpha command. -/
theorem extract_alpha_alias :
    aliasGet alias_map "extract-alpha" = "alpha"
    ∧ get_command "extract-alpha" = get_command "alpha"
    ∧ get_command "extract-alpha" = some ImgCommand.extract_alpha :=
  ⟨rfl, rfl, rfl⟩

/-- C10: with no explicit build numbers, the list assembled by
`builds apk` contains no two entries with the same build number, whatever
the index service returns per workflow; with explicit build numbers, the
fetch is issued for the duplicate-free collapse of the given numbers. -/
theorem apk_download_dedup :
    ∀ (listLatest : String → List IndexBuildEntry)
      (fetch_builds : List Nat → List IndexBuildEntry)
      (workflows : List String) (nums : List Nat),
      (nums = [] →
        ((builds_apk_entries listLatest fetch_builds workflows nums).map
          IndexBuildEntry.build_num).Nodup)
      ∧ (nums ≠ [] →
          builds_apk_entries listLatest fetch_builds workflows nums =
              fetch_builds nums.dedup
            ∧ nums.dedup.Nodup ∧ ∀ n, n ∈ nums.dedup ↔ n ∈ nums) := by
  intro listLatest fetch_builds workflows nums
  constructor
  · intro hnil
    subst hnil
    have h := gatherLatest_invariant listLatest workflows ([], []) rfl List.nodup_nil
    simpa [builds_apk_entries, ← h.1] using h.2
  · intro hne
    refine ⟨by simp [builds_apk_entries, hne], List.nodup_dedup nums,
      fun n => List.mem_dedup⟩

theorem apk_download_dedup_witness :
    ((builds_apk_entries (fun _ => [⟨3, "m"⟩]) (fun ns => ns.map (fun n => ⟨n, ""⟩))
        ["w1", "w2"] []).map IndexBuildEntry.build_num).Nodup
    ∧ (builds_apk_entries (fun _ => [⟨3, "m"⟩]) (fun ns => ns.map (fun n => ⟨n, ""⟩))
          ["w1", "w2"] [5, 5] =
            (fun ns : List Nat => ns.map (fun n => ⟨n, ""⟩)) ([5, 5].dedup)
        ∧ ([5, 5] : List Nat).dedup.Nodup
        ∧ ∀ n, n ∈ ([5, 5] : List Nat).dedup ↔ n ∈ ([5, 5] : List Nat)) :=
  ⟨(apk_download_dedup (fun _ => [⟨3, "m"⟩]) (fun ns => ns.map (fun n => ⟨n, ""⟩))
      ["w1", "w2"] []).1 rfl,
   (apk_download_dedup (fun _ => [⟨3, "m"⟩]) (fun ns => ns.map (fun n => ⟨n, ""⟩))
      ["w1", "w2"] [5, 5]).2 (by simp)⟩

end NexCLI
